import Mathlib

/-!
Verification of the layout subsystem of the Proxyshop repository
(`src/layouts.py`). The Python classes are shallowly embedded as pure
Lean functions: dictionaries become structures, `cached_property`
accessors become functions of their inputs, in-place mutation becomes
explicit state passing, and Python exceptions become `Except` values.
External collaborators (the `omnitils` string library's `normalize_str`,
the watermark asset lookups from `src/utils/hexapi.py`, the regex table
in `src/enums/mtg.py`) are passed in as explicit function parameters or
modelled where noted.
-/

namespace Proxyshop

/-! ## Python string primitives

Executable models of the Python `str` operations used by
`src/layouts.py`, written over `List Char` so that every definition is
structurally recursive and kernel-reducible. -/

/-- Python `str.split(sep)` for a one-character separator: splitting the
empty string yields `[""]`, and separators at the ends yield empty
pieces, exactly as in Python. -/
def splitChar (sep : Char) : List Char → List (List Char)
  | [] => [[]]
  | c :: cs =>
    let r := splitChar sep cs
    if c = sep then [] :: r
    else (c :: r.headD []) :: r.tail

/-- Python `s.split('\n')` on a `String`. -/
def pySplitNl (s : String) : List String :=
  (splitChar '\n' s.data).map String.mk

/-- Python `'\n'.join(parts)`. -/
def joinNl (parts : List String) : String :=
  String.intercalate "\n" parts

/-- Python `''.join(parts)`. -/
def joinEmpty (parts : List String) : String :=
  String.join parts

/-- Python `str.splitlines()` for `'\n'`-separated text: the empty
string yields `[]`, and one trailing newline produces no trailing empty
piece. -/
def pySplitlines (s : String) : List String :=
  if s.data = [] then []
  else
    let parts := (splitChar '\n' s.data).map String.mk
    if s.data.getLast? = some '\n' then parts.dropLast else parts

/-- Python `str.lstrip()` (whitespace stripped from the left). -/
def pyLstrip (s : String) : String :=
  String.mk (s.data.dropWhile Char.isWhitespace)

/-- Python `str.rstrip()` (whitespace stripped from the right). -/
def pyRstrip (s : String) : String :=
  String.mk ((s.data.reverse.dropWhile Char.isWhitespace).reverse)

/-- Python `str.strip()` (whitespace stripped from both ends). -/
def pyStrip (s : String) : String :=
  pyRstrip (pyLstrip s)

/-- Python slice `s[:n]`. -/
def strTake (s : String) (n : Nat) : String :=
  String.mk (s.data.take n)

/-- Python slice `s[n:]`. -/
def strDrop (s : String) (n : Nat) : String :=
  String.mk (s.data.drop n)

/-- Index of the first occurrence of `needle` in the tail list, offset
by `i`: the recursion behind Python `str.find`. -/
def findSubAux (needle : List Char) : List Char → Nat → Option Nat
  | [], i => if needle.isEmpty then some i else none
  | c :: cs, i =>
    if needle.isPrefixOf (c :: cs) then some i
    else findSubAux needle cs (i + 1)

/-- Python `s.find(needle)`, with `none` standing for Python's `-1`. -/
def pyFind (s needle : String) : Option Nat :=
  findSubAux needle.data s.data 0

/-- Python `str.split(sep)` for a multi-character separator, with fuel
for structural termination (`fuel = length + 1` always suffices since
every step consumes at least one character of the remainder). -/
def splitSubFuel (sep : List Char) : Nat → List Char → List Char → List (List Char)
  | 0, acc, rest => [acc.reverse ++ rest]
  | _ + 1, acc, [] => [acc.reverse]
  | fuel + 1, acc, c :: cs =>
    if sep.isPrefixOf (c :: cs) then
      acc.reverse :: splitSubFuel sep fuel [] (List.drop (sep.length - 1) cs)
    else splitSubFuel sep fuel (c :: acc) cs

/-- Python `s.split(sep)` for a non-empty multi-character separator. -/
def pySplitSub (s sep : String) : List String :=
  if sep.data.isEmpty then [s]
  else (splitSubFuel sep.data (s.data.length + 1) [] s.data).map String.mk

/-- Python `int(digits)` on a non-empty string of decimal digits. -/
def digitsToNat (cs : List Char) : Nat :=
  cs.foldl (fun n c => 10 * n + (c.toNat - 48)) 0

/-- Python `str.lower()` (ASCII case folding suffices for the
watermark keys and set codes this code handles). -/
def pyLower (s : String) : String :=
  String.mk (s.data.map Char.toLower)

/-- Python exceptions raised by the embedded code paths. -/
inductive PyError where
  | typeError
  | valueError
  | indexError
deriving DecidableEq, Repr

/-! ## Collector number (`NormalLayout.collector_number`, layouts.py 422-432)

```python
if self.collector_number_raw:
    return int(''.join(char for char in self.collector_number_raw if char.isdigit()))
return 0
```

`int('')` raises `ValueError` when a non-empty raw string contains no
digit character; an absent or empty raw string is falsy and falls back
to `0`. -/

/-- `NormalLayout.collector_number` as a function of the raw collector
string (`scryfall.get('collector_number')`). -/
def collector_number (collector_number_raw : Option String) : Except PyError Nat :=
  match collector_number_raw with
  | some s =>
    if s ≠ "" then
      let digits := s.data.filter Char.isDigit
      if digits.isEmpty then Except.error PyError.valueError
      else Except.ok (digitsToNat digits)
    else Except.ok 0
  | none => Except.ok 0

/-- Claim C5 counterexample: for the non-empty raw collector string
`"★"`, which contains no digit character, the code raises `ValueError`
(`int('')`) instead of producing the claimed digits-only integer `0`. -/
theorem collector_number_no_digit_counterexample :
    collector_number (some "★") = Except.error PyError.valueError ∧
    collector_number (some "★") ≠ Except.ok 0 :=
  ⟨rfl, fun h => Except.noConfusion ((h.symm.trans rfl : (Except.ok 0 : Except PyError Nat) = Except.error PyError.valueError))⟩

/-- Claim C5 (amended): `collector_number` is the digits-only integer of
the raw collector string when that string contains at least one digit
character, is `0` when the raw string is absent or empty, and raises
`ValueError` when the raw string is non-empty but contains no digit
character; e.g. raw number `"7★"` yields `7`. -/
theorem collector_number_amended :
    (collector_number none = Except.ok 0) ∧
    (collector_number (some "") = Except.ok 0) ∧
    (∀ s : String, s ≠ "" → (s.data.filter Char.isDigit).isEmpty = true →
      collector_number (some s) = Except.error PyError.valueError) ∧
    (∀ s : String, (s.data.filter Char.isDigit).isEmpty = false →
      collector_number (some s) = Except.ok (digitsToNat (s.data.filter Char.isDigit))) ∧
    collector_number (some "7★") = Except.ok 7 := by
  refine ⟨rfl, rfl, ?_, ?_, rfl⟩
  · intro s hne hd
    simp [collector_number, hne, hd]
  · intro s hd
    have hne : s ≠ "" := by
      intro h
      rw [h] at hd
      simp [String.data] at hd
    simp [collector_number, hne, hd]

/-- Claim C5 witness: the amended theorem applied at the concrete raw
collector string `"050"` yields the digits-only value `50`. -/
theorem collector_number_witness : collector_number (some "050") = Except.ok 50 :=
  (collector_number_amended.2.2.2.1 "050" (by decide)).trans rfl

/-! ## Planeswalker ability parsing (`PlaneswalkerLayout.pw_abilities`, layouts.py 910-952)

For each English ability paragraph `en_lines[i]` the code computes
`index = en_lines[i].find(": ")` and builds

```python
{'text': line[index + 1:].lstrip(),
 'icon': en_lines[i][0],
 'cost': en_lines[i][0:index]} if 5 > index > 0 else
{'text': line, 'icon': None, 'cost': None}
```

Below is the monolingual path, where `line` is the English paragraph
itself. -/

/-- One parsed Planeswalker ability (`icon` is a one-character string,
as Python string indexing yields). -/
structure PwAbility where
  text : String
  icon : Option String
  cost : Option String
deriving DecidableEq, Repr

/-- The per-paragraph parse performed by `PlaneswalkerLayout.pw_abilities`. -/
def pw_ability_of_line (line : String) : PwAbility :=
  let index : Int := match pyFind line ": " with | some i => (i : Int) | none => -1
  if 0 < index ∧ index < 5 then
    { text := pyLstrip (strDrop line (index.toNat + 1)),
      icon := some (strTake line 1),
      cost := some (strTake line index.toNat) }
  else
    { text := line, icon := none, cost := none }

/-- Claim C9: a Planeswalker ability paragraph parses as an activated
ability (text = remainder after the `": "` separator with leading
whitespace stripped, icon = first character, cost = prefix before the
separator) exactly when the position of `": "` is between 1 and 4
inclusive; a paragraph with no `": "`, or with the separator at
position 0 or past position 4, parses as a static ability whose text is
the whole paragraph with no icon and no cost. -/
theorem pw_ability_policy :
    (∀ line i, pyFind line ": " = some i → 1 ≤ i → i ≤ 4 →
      pw_ability_of_line line =
        { text := pyLstrip (strDrop line (i + 1)),
          icon := some (strTake line 1),
          cost := some (strTake line i) }) ∧
    (∀ line, pyFind line ": " = none →
      pw_ability_of_line line = { text := line, icon := none, cost := none }) ∧
    (∀ line, pyFind line ": " = some 0 →
      pw_ability_of_line line = { text := line, icon := none, cost := none }) ∧
    (∀ line i, pyFind line ": " = some i → 5 ≤ i →
      pw_ability_of_line line = { text := line, icon := none, cost := none }) := by
  refine ⟨?_, ?_, ?_, ?_⟩
  · intro line i hf h1 h4
    simp only [pw_ability_of_line, hf]
    rw [if_pos]
    · simp
    · constructor <;> omega
  · intro line hf
    simp [pw_ability_of_line, hf]
  · intro line hf
    simp [pw_ability_of_line, hf]
  · intro line i hf h5
    simp only [pw_ability_of_line, hf]
    rw [if_neg]
    omega

/-- Claim C9 witness: the paragraph `"+1: Draw a card."` has its `": "`
separator at position 2, so it parses as an activated ability with icon
`"+"` and cost `"+1"`. -/
theorem pw_ability_witness :
    pw_ability_of_line "+1: Draw a card." =
      { text := "Draw a card.", icon := some "+", cost := some "+1" } :=
  (pw_ability_policy.1 "+1: Draw a card." 2 rfl (by decide) (by decide)).trans rfl

/-! ## Face selection (`NormalLayout.card`, layouts.py 220-229)

```python
for i, face in enumerate(self.scryfall.get('card_faces', [])):
    if normalize_str(face['name']) == normalize_str(self.input_name):
        return face
return self.scryfall
```

`normalize_str` comes from the external `omnitils` library and is
passed in as a parameter. -/

/-- One entry of `card_faces` (the fields other than `name` that the
derived accessors read are bundled opaquely in `payload`). -/
structure FaceData where
  name : String
  payload : String
deriving DecidableEq, Repr, Inhabited

/-- A raw Scryfall record: its `card_faces` list (empty when the key is
absent) and the record itself viewed as a face-like field source. -/
structure ScryRecord where
  card_faces : List FaceData
  top : FaceData
deriving DecidableEq, Repr

/-- The loop inside `NormalLayout.card`. -/
def card_select (normalize : String → String) (input_name : String) (top : FaceData) :
    List FaceData → FaceData
  | [] => top
  | f :: fs =>
    if normalize f.name = normalize input_name then f
    else card_select normalize input_name top fs

/-- `NormalLayout.card`: the face-like object every single-face derived
field is read from. -/
def card_of (normalize : String → String) (r : ScryRecord) (input_name : String) : FaceData :=
  card_select normalize input_name r.top r.card_faces

/-- Claim C10: the face used for single-face derived fields is the first
face of `card_faces` whose normalized name equals the normalized
art-file card name; when no face matches, and in particular when the
record has no `card_faces`, the top-level record itself is used. -/
theorem card_face_selection :
    (∀ (nm : String → String) (r : ScryRecord) (inp : String),
      card_of nm r inp = ((r.card_faces.find? fun f => nm f.name == nm inp).getD r.top)) ∧
    (∀ (nm : String → String) (faces : List FaceData) (top : FaceData) (inp : String),
      (∀ f ∈ faces, nm f.name ≠ nm inp) →
      card_of nm ⟨faces, top⟩ inp = top) ∧
    (∀ (nm : String → String) (top : FaceData) (inp : String),
      card_of nm ⟨[], top⟩ inp = top) := by
  have h1 : ∀ (nm : String → String) (inp : String) (top : FaceData) (faces : List FaceData),
      card_select nm inp top faces = ((faces.find? fun f => nm f.name == nm inp).getD top) := by
    intro nm inp top faces
    induction faces with
    | nil => rfl
    | cons f fs ih =>
      by_cases h : nm f.name = nm inp
      · simp [card_select, List.find?, h]
      · simp only [card_select, List.find?, if_neg h]
        rw [beq_false_of_ne h]
        exact ih
  refine ⟨fun nm r inp => h1 nm inp r.top r.card_faces, ?_, fun nm top inp => rfl⟩
  intro nm faces top inp hno
  rw [show card_of nm ⟨faces, top⟩ inp = card_select nm inp top faces from rfl,
    h1 nm inp top faces]
  have : faces.find? (fun f => nm f.name == nm inp) = none := by
    rw [List.find?_eq_none]
    intro f hf
    simpa using hno f hf
  rw [this]
  rfl

/-- Claim C10 witness: with a single face `"Fire"` not matching the
art-file name `"Ice"`, the top-level record is selected. -/
theorem card_face_selection_witness :
    card_of (fun s => s) ⟨[⟨"Fire", ""⟩], ⟨"Top", ""⟩⟩ "Ice" = ⟨"Top", ""⟩ :=
  card_face_selection.2.1 (fun s => s) [⟨"Fire", ""⟩] ⟨"Top", ""⟩ "Ice" (by decide)

/-! ## Watermark resolution (`NormalLayout.watermark_svg`, layouts.py 511-551;
`SplitLayout.watermark_svgs`, layouts.py 1416-1467)

The asset lookups `get_watermark_svg` / `get_watermark_svg_from_set`
come from `src/utils/hexapi.py` (an external collaborator here) and are
passed in as parameters, together with the data the set-code special
cases read. -/

/-- Modelled from the spec: the `WatermarkMode` setting enum lives in
`src/enums/settings.py`, which is not among the provided sources; its
four states are taken from the spec's watermark-policy section. -/
inductive WatermarkMode where
  | Disabled
  | Forced
  | Automatic
  | Fallback
deriving DecidableEq, Repr

/-- The collaborators and card data read by `_find_watermark_svg`. -/
structure WatermarkEnv where
  get_watermark_svg : String → Option String
  get_watermark_svg_from_set : String → Option String
  first_print_set : Option String
  set_code : String

/-- `_find_watermark_svg` (nested in `watermark_svg`): `None`/empty is
falsy and yields no asset; `'set'`/`'symbol'` are sentinel keys resolved
through the set-code lookup; anything else is a direct key lookup. -/
def find_watermark_svg (env : WatermarkEnv) (wm : Option String) : Option String :=
  match wm with
  | none => none
  | some w =>
    if w = "" then none
    else
      let wl := pyLower w
      if wl = "set" ∨ wl = "symbol" then
        env.get_watermark_svg_from_set
          (if wl = "set" then env.first_print_set.getD env.set_code else env.set_code)
      else env.get_watermark_svg wl

/-- `NormalLayout.watermark_svg`: the mode dispatch over the face's raw
watermark key (`self.watermark_raw`) and the configured default key
(`CFG.watermark_default`). -/
def watermark_svg (mode : WatermarkMode) (watermark_default : String) (env : WatermarkEnv)
    (watermark_raw : Option String) : Option String :=
  match mode with
  | WatermarkMode.Disabled => none
  | WatermarkMode.Forced => find_watermark_svg env (some watermark_default)
  | m =>
    let path := find_watermark_svg env watermark_raw
    if path.isSome ∨ m = WatermarkMode.Automatic then path
    else find_watermark_svg env (some watermark_default)

/-- `SplitLayout.watermark_svgs`: the same dispatch performed per face
over `watermarks_raw` (which reads `c.get('watermark', '')`, hence plain
strings with `''` for an absent key). -/
def watermark_svgs (mode : WatermarkMode) (watermark_default : String) (env : WatermarkEnv) :
    List String → List (Option String)
  | [] => []
  | w :: ws =>
    (if mode = WatermarkMode.Disabled then none
     else if mode = WatermarkMode.Forced then find_watermark_svg env (some watermark_default)
     else
       let path := find_watermark_svg env (some w)
       if path.isSome ∨ mode = WatermarkMode.Automatic then path
       else find_watermark_svg env (some watermark_default)) ::
    watermark_svgs mode watermark_default env ws

/-- Claim C4: watermark selection follows the 4-mode policy — Disabled
always yields none; Forced resolves the configured default ignoring the
face's raw key; Automatic resolves the face's own raw key, with a failed
or absent resolution yielding none; Fallback resolves the face's own raw
key first and falls back to the configured default exactly when no asset
was found; and a Split card applies the same per-face policy to each
face independently. -/
theorem watermark_mode_policy :
    (∀ (d : String) (env : WatermarkEnv) (raw : Option String),
      watermark_svg WatermarkMode.Disabled d env raw = none) ∧
    (∀ (d : String) (env : WatermarkEnv) (raw : Option String),
      watermark_svg WatermarkMode.Forced d env raw = find_watermark_svg env (some d)) ∧
    (∀ (d : String) (env : WatermarkEnv) (raw : Option String),
      watermark_svg WatermarkMode.Automatic d env raw = find_watermark_svg env raw) ∧
    (∀ env : WatermarkEnv,
      find_watermark_svg env none = none ∧ find_watermark_svg env (some "") = none) ∧
    (∀ (d : String) (env : WatermarkEnv) (raw : Option String),
      watermark_svg WatermarkMode.Fallback d env raw =
        match find_watermark_svg env raw with
        | some p => some p
        | none => find_watermark_svg env (some d)) ∧
    (∀ (mode : WatermarkMode) (d : String) (env : WatermarkEnv) (raws : List String),
      watermark_svgs mode d env raws = raws.map fun w => watermark_svg mode d env (some w)) := by
  refine ⟨fun d env raw => rfl, fun d env raw => rfl, ?_, fun env => ⟨rfl, rfl⟩, ?_, ?_⟩
  · intro d env raw
    simp [watermark_svg]
  · intro d env raw
    cases h : find_watermark_svg env raw <;> simp [watermark_svg, h]
  · intro mode d env raws
    induction raws with
    | nil => rfl
    | cons w ws ih =>
      rw [watermark_svgs, List.map_cons, ih]
      cases mode <;> simp [watermark_svg]

/-! ## Saga text segmentation (`SagaLayout`, layouts.py 1138-1214) -/

/-- Membership in the character class of
`SagaLayout._chapter_regex = re.compile(r"^[ ,IVXLCDM]+ — ")`. -/
def isChapterChar (c : Char) : Bool :=
  c = ' ' ∨ c = ',' ∨ c = 'I' ∨ c = 'V' ∨ c = 'X' ∨ c = 'L' ∨ c = 'C' ∨ c = 'D' ∨ c = 'M'

/-- `SagaLayout._chapter_regex.match(s)` as a Bool: the anchored pattern
`^[ ,IVXLCDM]+ — ` matches iff some non-empty prefix of class characters
is followed by space, em-dash, space. -/
def chapterMatch (s : String) : Bool :=
  (List.range s.data.length).any fun k =>
    decide (1 ≤ k) && (s.data.take k).all isChapterChar &&
      decide (s.data.get? k = some ' ') && decide (s.data.get? (k + 1) = some '—') &&
      decide (s.data.get? (k + 2) = some ' ')

/-- Modelled from the spec: `omnitils.strings.get_line(text, 0)` is an
external helper (not part of this repository); per the spec's wording
("the first line") it selects the first newline-separated line. -/
def get_line0 (s : String) : String :=
  (pySplitNl s).headD ""

/-- Modelled from the spec: `omnitils.strings.strip_lines(text, n)` is
an external helper (not part of this repository); per the spec's wording
("minus the first line", "the remaining lines") it removes the first `n`
newline-separated lines. -/
def strip_lines (s : String) (n : Nat) : String :=
  joinNl ((pySplitNl s).drop n)

/-- `SagaLayout.saga_text`: the chapter lines of the oracle text. -/
def saga_text (oracle_text : String) : String :=
  joinNl ((pySplitlines oracle_text).filter chapterMatch)

/-- `SagaLayout.saga_description` (layouts.py 1184-1190): empty when
reminder removal is configured, else the first oracle line unless it is
a chapter line. -/
def saga_description (remove_reminder : Bool) (oracle_text : String) : String :=
  if remove_reminder then ""
  else
    let line := get_line0 oracle_text
    if chapterMatch line then "" else line

/-- `SagaLayout.ability_text` (layouts.py 1168-1182): the scan that
returns everything from the first non-chapter line onward. -/
def ability_loop : List String → Option String
  | [] => none
  | l :: ls => if chapterMatch l then ability_loop ls else some (joinNl (l :: ls))

/-- `SagaLayout.ability_text`: drop the first oracle line, then return
all text from the first non-chapter line to the end (or `""`). -/
def ability_text (oracle_text : String) : String :=
  match ability_loop (pySplitlines (strip_lines oracle_text 1)) with
  | some t => t
  | none => ""

/-- One element of `SagaLayout.saga_lines`. -/
structure SagaAbility where
  text : String
  icons : List String
deriving DecidableEq, Repr, Inhabited

/-- Python `abilities[-1]['text'] += f"\n\x7bline\x7d"` (the caller
never reaches this with an empty list). -/
def appendToLast : List SagaAbility → String → List SagaAbility
  | [], _ => []
  | [a], line => [{ a with text := a.text ++ "\n" ++ line }]
  | a :: rest, line => a :: appendToLast rest line

/-- The `for i, line in enumerate(self.saga_text.split("\n"))` loop of
`SagaLayout.saga_lines`. -/
def saga_lines_aux : Nat → List String → List SagaAbility → List SagaAbility
  | _, [], abilities => abilities
  | i, line :: rest, abilities =>
    match pyFind line "—" with
    | some idx =>
      saga_lines_aux (i + 1) rest (abilities ++
        [{ text := pyStrip (strDrop line (idx + 1)),
           icons := pySplitSub (pyStrip (strTake line idx)) ", " }])
    | none =>
      if i = 0 then saga_lines_aux (i + 1) rest (abilities ++ [{ text := line, icons := [] }])
      else saga_lines_aux (i + 1) rest (appendToLast abilities line)

/-- `SagaLayout.saga_lines`. -/
def saga_lines (oracle_text : String) : List SagaAbility :=
  saga_lines_aux 0 (pySplitNl (saga_text oracle_text)) []

/-- The first newline-separated line of a string, written independently
of the embedded `get_line0` helper. -/
def specFirstLine (s : String) : String :=
  String.mk (s.data.takeWhile fun c => !(c = '\n'))

theorem splitChar_headD (sep : Char) (cs : List Char) :
    (splitChar sep cs).headD [] = cs.takeWhile fun c => !(c = sep) := by
  induction cs with
  | nil => rfl
  | cons c cs ih =>
    simp only [splitChar]
    by_cases h : c = sep
    · simp [h, List.takeWhile_cons]
    · simp only [if_neg h, List.headD_cons, List.takeWhile_cons]
      rw [if_pos (by simp [h])]
      exact congrArg (fun l => c :: l) ih

theorem splitChar_ne_nil (sep : Char) (cs : List Char) : splitChar sep cs ≠ [] := by
  cases cs with
  | nil => simp [splitChar]
  | cons c cs =>
    rw [splitChar]
    by_cases h : c = sep <;> simp [h]

theorem get_line0_eq_specFirstLine (s : String) : get_line0 s = specFirstLine s := by
  rw [get_line0, specFirstLine, pySplitNl, ← splitChar_headD '\n' s.data]
  cases h : splitChar '\n' s.data with
  | nil => exact absurd h (splitChar_ne_nil '\n' s.data)
  | cons p ps => rfl

/-- The oracle text from the spec's Saga example. -/
def sagaExample : String :=
  "Read ahead.\nI — Draw a card.\nII — Deal 2 damage.\nIII — Gain 3 life."

/-- Claim C7: with reminder removal disabled, `saga_description` is the
first line of the oracle text exactly when that line does not match the
chapter pattern `^[ ,IVXLCDM]+ — ` (and is empty otherwise); and on the
spec's example text the description is `"Read ahead."` while
`saga_lines` yields three chapters with icons `["I"]`, `["II"]`,
`["III"]`. -/
theorem saga_description_and_lines :
    (∀ oracle_text : String,
      saga_description false oracle_text =
        if chapterMatch (specFirstLine oracle_text) then "" else specFirstLine oracle_text) ∧
    saga_description false sagaExample = "Read ahead." ∧
    saga_lines sagaExample =
      [{ text := "Draw a card.", icons := ["I"] },
       { text := "Deal 2 damage.", icons := ["II"] },
       { text := "Gain 3 life.", icons := ["III"] }] := by
  refine ⟨?_, rfl, rfl⟩
  intro oracle_text
  rw [saga_description, if_neg (by simp), ← get_line0_eq_specFirstLine]

/-- The claim C8 reading of `ability_text`: among the lines strictly
after the first chapter line, keep exactly those that are not themselves
chapter lines. -/
def ability_text_claimed (oracle_text : String) : String :=
  let lines := pySplitlines oracle_text
  let after := ((lines.dropWhile fun l => !(chapterMatch l)).drop 1)
  joinNl (after.filter fun l => !(chapterMatch l))

/-- Claim C8 counterexample: for oracle text
`"I — a\nfoo\nII — b"` the code returns `"foo\nII — b"` — which still
contains the chapter line `"II — b"` — while the claim demands exactly
the non-chapter lines after the first chapter boundary, i.e. `"foo"`. -/
theorem ability_text_counterexample :
    ability_text "I — a\nfoo\nII — b" = "foo\nII — b" ∧
    ability_text_claimed "I — a\nfoo\nII — b" = "foo" ∧
    chapterMatch "II — b" = true ∧
    ("foo\nII — b" : String) ≠ "foo" :=
  ⟨rfl, rfl, rfl, by decide⟩

theorem ability_loop_eq_dropWhile (ls : List String) :
    ability_loop ls =
      match ls.dropWhile chapterMatch with
      | [] => none
      | l :: t => some (joinNl (l :: t)) := by
  induction ls with
  | nil => rfl
  | cons l ls ih =>
    by_cases h : chapterMatch l
    · rw [ability_loop, if_pos h, List.dropWhile_cons_of_pos h, ih]
    · rw [ability_loop, if_neg h,
        List.dropWhile_cons_of_neg (by simpa using h)]

theorem dropWhile_append_of_all {p : String → Bool} (pre post : List String)
    (hpre : pre.all p = true) :
    (pre ++ post).dropWhile p = post.dropWhile p := by
  induction pre with
  | nil => rfl
  | cons a pre ih =>
    simp only [List.all_cons, Bool.and_eq_true] at hpre
    rw [List.cons_append, List.dropWhile_cons_of_pos hpre.1, ih hpre.2]

/-- Claim C8 (amended): `ability_text` is the whole contiguous suffix of
lines starting at the first non-chapter line after the oracle text's
first line — later chapter lines included verbatim; when the chapter
lines are contiguous there and everything after them is non-chapter,
this is exactly the trailing non-chapter lines, as the claim states. -/
theorem ability_text_amended :
    (∀ oracle_text : String,
      ability_text oracle_text =
        joinNl ((pySplitlines (strip_lines oracle_text 1)).dropWhile chapterMatch)) ∧
    (∀ (oracle_text : String) (chapters rest : List String),
      pySplitlines (strip_lines oracle_text 1) = chapters ++ rest →
      chapters.all chapterMatch = true →
      rest.all (fun l => !(chapterMatch l)) = true →
      ability_text oracle_text = joinNl rest) := by
  have key : ∀ oracle_text : String,
      ability_text oracle_text =
        joinNl ((pySplitlines (strip_lines oracle_text 1)).dropWhile chapterMatch) := by
    intro oracle_text
    rw [ability_text, ability_loop_eq_dropWhile]
    cases h : (pySplitlines (strip_lines oracle_text 1)).dropWhile chapterMatch with
    | nil => rfl
    | cons l t => rfl
  refine ⟨key, ?_⟩
  intro oracle_text chapters rest hsplit hch hrest
  rw [key, hsplit, dropWhile_append_of_all chapters rest hch]
  cases rest with
  | nil => rfl
  | cons r rs =>
    simp only [List.all_cons, Bool.and_eq_true] at hrest
    rw [List.dropWhile_cons_of_neg (by simpa using hrest.1)]

/-- Claim C8 witness: for the creature-Saga shaped text
`"Read ahead.\nI — c1\nFlying"` the amended theorem yields exactly the
trailing non-chapter line `"Flying"`. -/
theorem ability_text_witness : ability_text "Read ahead.\nI — c1\nFlying" = "Flying" :=
  (ability_text_amended.2 "Read ahead.\nI — c1\nFlying" ["I — c1"] ["Flying"] rfl rfl rfl).trans
    rfl

/-! ## Split oracle texts (`SplitLayout.oracle_texts`, layouts.py 1509-1554)

```python
for t in [...base texts...]:
    if 'Fuse' in self.keywords:
        t = ''.join(t.split('\n')[:-1])
    elif self.shared_reminder:
        t = t[0:-len(self.shared_reminder)].rstrip()
    text.append(t)
```

The `TEXT_REMINDER_ENDING` regex lives in `src/enums/mtg.py` (not among
the provided sources); its `match(...).group(1)` is passed in as the
abstract parameter `reminder_ending`. -/

/-- The textual fields of one half (`card_faces` entry) of a split card. -/
structure SplitFace where
  oracle_text : String
  printed_text : Option String
deriving DecidableEq, Repr

/-- The per-face base texts `c.get('printed_text', c.get('oracle_text', ''))
if self.is_alt_lang else c.get('oracle_text', '')`. -/
def base_texts (is_alt_lang : Bool) (cards : List SplitFace) : List String :=
  cards.map fun c =>
    if is_alt_lang then c.printed_text.getD c.oracle_text else c.oracle_text

/-- `SplitLayout.shared_reminder` (layouts.py 1541-1554): the loop over
both halves' texts keeping the common reminder-ending capture, or `""`. -/
def shared_reminder_loop (reminder_ending : String → Option String) :
    String → List String → String
  | prev_match, [] => prev_match
  | prev_match, t :: ts =>
    let m := reminder_ending t
    let curr_match := m.getD ""
    if m.isNone ∨ (prev_match ≠ "" ∧ prev_match ≠ curr_match) then ""
    else shared_reminder_loop reminder_ending curr_match ts

/-- `SplitLayout.shared_reminder`. -/
def shared_reminder (reminder_ending : String → Option String) (is_alt_lang : Bool)
    (cards : List SplitFace) : String :=
  shared_reminder_loop reminder_ending "" (base_texts is_alt_lang cards)

/-- `SplitLayout.oracle_texts`. -/
def oracle_texts (reminder_ending : String → Option String) (is_alt_lang : Bool)
    (keywords : List String) (cards : List SplitFace) : List String :=
  let shared := shared_reminder reminder_ending is_alt_lang cards
  (base_texts is_alt_lang cards).map fun t =>
    if keywords.contains "Fuse" then joinEmpty ((pySplitNl t).dropLast)
    else if shared ≠ "" then pyRstrip (strTake t (t.data.length - shared.data.length))
    else t

/-- A two-half Fuse card whose first half has a multi-line rules text. -/
def fuseCards : List SplitFace :=
  [{ oracle_text := "A\nB\nFuse (You may cast both halves.)", printed_text := none },
   { oracle_text := "C\nFuse (You may cast both halves.)", printed_text := none }]

/-- Claim C6 counterexample: on a Fuse half whose remaining text spans
two lines (`"A\nB"`), the code's `''.join(t.split('\n')[:-1])` returns
`"AB"` — the final line is dropped but the remaining line break is lost,
not preserved as the claim states. -/
theorem oracle_texts_fuse_counterexample :
    oracle_texts (fun _ => none) false ["Fuse"] fuseCards = ["AB", "C"] ∧
    ("AB" : String) ≠ "A\nB" :=
  ⟨rfl, by decide⟩

/-- Claim C6 (amended): when the keywords include `"Fuse"`, each element
of `oracle_texts` is the concatenation, without separators, of all lines
of that half's text except the last (the Fuse reminder line is dropped
and the remaining line breaks are removed); the shared-reminder
stripping branch is not applied, whatever the reminder pattern returns. -/
theorem oracle_texts_fuse_amended :
    ∀ (reminder_ending : String → Option String) (is_alt_lang : Bool)
      (keywords : List String) (cards : List SplitFace),
      keywords.contains "Fuse" = true →
      oracle_texts reminder_ending is_alt_lang keywords cards =
        (base_texts is_alt_lang cards).map fun t => joinEmpty ((pySplitNl t).dropLast) := by
  intro reminder_ending is_alt_lang keywords cards hfuse
  rw [oracle_texts]
  simp only [hfuse, if_true]

/-- Claim C6 witness: the amended theorem applied to the concrete Fuse
card, evaluating to `["AB", "C"]`. -/
theorem oracle_texts_fuse_witness :
    oracle_texts (fun _ => none) false ["Fuse"] fuseCards = ["AB", "C"] :=
  (oracle_texts_fuse_amended (fun _ => none) false ["Fuse"] fuseCards rfl).trans rfl

/-! ## Dual-face merging (`join_dual_card_layouts`, layouts.py 92-128)

```python
skip, add = [], []
for card in split:
    if card in skip:
        continue
    for c in split:
        if c == card:
            continue
        if str(c) == str(card):
            card.art_file = [*card.art_file, *c.art_file] if (
                    normalize_str(card.name[0]) == normalize_str(card.file['name'])
            ) else [*c.art_file, *card.art_file]
            skip.extend([card, c])
    add.append(card)
return [*normal, *add]
```

Layout objects define no `__eq__`, so `in`/`==` are object identity;
instances are therefore tracked by their index in `split`, and the
in-place mutation of `card.art_file` becomes an update of the state's
instance list. -/

/-- The Python value held by a `SplitLayout`'s `art_file` attribute:
initially the single `pathlib.Path` computed by the cached property
(`SplitLayout.art_file = self.art_files[0]`, layouts.py 1316-1318), or a
list of paths if the merge loop has assigned one. -/
inductive ArtVal where
  | path (p : String)
  | files (l : List String)
deriving DecidableEq, Repr, Inhabited

/-- Python iterable unpacking `[*v, ...]`: a list iterates to its
elements; a `pathlib.Path` is not iterable, so unpacking it raises
`TypeError`. -/
def starUnpack : ArtVal → Except PyError (List String)
  | ArtVal.path _ => Except.error PyError.typeError
  | ArtVal.files l => Except.ok l

/-- The data of one classified `SplitLayout` instance read by
`join_dual_card_layouts`: the two face names (`self.names`; split
records carry exactly two card faces), `self.file['name']` (the card
name declared in the art file name), the set code and the computed
collector number printed by `__str__`, and the current `art_file`
attribute value. -/
structure SplitInst where
  name0 : String
  name1 : String
  file_name : String
  set_code : String
  collector_number : Nat
  art_file : ArtVal
deriving DecidableEq, Repr, Inhabited

/-- `SplitLayout.__str__` (layouts.py 1307-1310): the display name
`names[0] // names[1]`, then ` [set]` when the set code is truthy, then
the computed collector number in braces when non-zero. -/
def splitStr (s : SplitInst) : String :=
  (s.name0 ++ " // " ++ s.name1) ++
    (if s.set_code ≠ "" then " [" ++ s.set_code ++ "]" else "") ++
    (if s.collector_number ≠ 0 then " \x7b" ++ toString s.collector_number ++ "\x7d"
     else "")

/-- The merged `art_file` value of layouts.py 123-125. Python evaluates
the condition first: `card.name` is `SplitLayout.name`, i.e. the first
face name `names[0]`, so `card.name[0]` is its first *character*
(raising `IndexError` on an empty name); then the chosen branch unpacks
both `art_file` values (raising `TypeError` while they are single
`Path`s). -/
def merge_art (normalize : String → String) (card c : SplitInst) :
    Except PyError (List String) :=
  match card.name0.data with
  | [] => Except.error PyError.indexError
  | ch :: _ =>
    if normalize (String.mk [ch]) = normalize card.file_name then
      match starUnpack card.art_file, starUnpack c.art_file with
      | Except.ok a, Except.ok b => Except.ok (a ++ b)
      | Except.error e, _ => Except.error e
      | _, Except.error e => Except.error e
    else
      match starUnpack c.art_file, starUnpack card.art_file with
      | Except.ok b, Except.ok a => Except.ok (b ++ a)
      | Except.error e, _ => Except.error e
      | _, Except.error e => Except.error e

/-- One element of the `layouts` argument of `join_dual_card_layouts`:
an error message string, a non-Split layout object (opaque here), or a
Split layout instance. -/
inductive LEntry where
  | msg (s : String)
  | other (data : String)
  | split (inst : SplitInst)
deriving DecidableEq, Repr

/-- `n.card_class == LayoutType.Split` for a non-string entry. -/
def isSplitEntry : LEntry → Bool
  | LEntry.split _ => true
  | _ => false

/-- Extract the Split instance of an entry, if any. -/
def toSplit : LEntry → Option SplitInst
  | LEntry.split s => some s
  | _ => none

/-- The mutable state of the merge loops: the (in-place mutated) list of
split instances, and the `skip` and `add` lists holding instances by
their index in `split`. -/
structure MergeState where
  insts : List SplitInst
  skip : List Nat
  add : List Nat
deriving Repr

/-- The inner `for c in split` loop for the outer instance at index `i`:
`c == card` (object identity) is skipped, and a display-string collision
mutates `card.art_file` to the merged list and extends `skip` with both
objects. -/
def inner_loop (normalize : String → String) (i : Nat) :
    List Nat → MergeState → Except PyError MergeState
  | [], st => Except.ok st
  | j :: js, st =>
    if j = i then inner_loop normalize i js st
    else if splitStr (st.insts.getD j default) = splitStr (st.insts.getD i default) then
      (merge_art normalize (st.insts.getD i default) (st.insts.getD j default)).bind
        fun merged =>
          inner_loop normalize i js
            { insts := st.insts.set i
                { st.insts.getD i default with art_file := ArtVal.files merged },
              skip := st.skip ++ [i, j], add := st.add }
    else inner_loop normalize i js st

/-- The outer `for card in split` loop. -/
def outer_loop (normalize : String → String) (n : Nat) :
    List Nat → MergeState → Except PyError MergeState
  | [], st => Except.ok st
  | i :: is', st =>
    if i ∈ st.skip then outer_loop normalize n is' st
    else
      (inner_loop normalize i (List.range n) st).bind
        fun st' => outer_loop normalize n is' { st' with add := st'.add ++ [i] }

/-- `join_dual_card_layouts` (layouts.py 92-128): non-Split entries pass
through; Split entries run the merge loops, and `add` is materialized
back into layout entries at the end. -/
def join_dual_card_layouts (normalize : String → String) (layouts : List LEntry) :
    Except PyError (List LEntry) :=
  if (layouts.filterMap toSplit).isEmpty then
    Except.ok (layouts.filter fun n => !(isSplitEntry n))
  else
    (outer_loop normalize (layouts.filterMap toSplit).length
        (List.range (layouts.filterMap toSplit).length)
        { insts := layouts.filterMap toSplit, skip := [], add := [] }).bind
      fun st =>
        Except.ok ((layouts.filter fun n => !(isSplitEntry n)) ++
          st.add.map fun i => LEntry.split (st.insts.getD i default))

/-- A freshly classified Split instance for the art file named `"Fire"`
of the printing `Fire // Ice [APC] \x7b128\x7d`. -/
def fireInst : SplitInst :=
  ⟨"Fire", "Ice", "Fire", "APC", 128, ArtVal.path "Fire.jpg"⟩

/-- A freshly classified Split instance for the art file named `"Ice"`
of the same printing. -/
def iceInst : SplitInst :=
  ⟨"Fire", "Ice", "Ice", "APC", 128, ArtVal.path "Ice.jpg"⟩

/-- Claim C1 (code bug): on two freshly classified Split instances of
the same printing the merge raises `TypeError` — `SplitLayout.art_file`
is a single `pathlib.Path` and `[*card.art_file, ...]` cannot unpack it
— instead of returning one merged instance. Moreover, even with
list-valued `art_file` attributes, the ordering guard compares
`normalize_str(card.name[0])` — the first *character* of the first face
name (`"F"`) — with the declared art-file name (`"Fire"`), so the
instance whose art-file name matches face 0 contributes its file
*second*, not first as claimed: the merged list comes out
`["Ice.jpg", "Fire.jpg"]`. -/
theorem join_dual_merge_bug :
    join_dual_card_layouts (fun s => s) [LEntry.split fireInst, LEntry.split iceInst] =
      Except.error PyError.typeError ∧
    join_dual_card_layouts (fun s => s)
        [LEntry.split { fireInst with art_file := ArtVal.files ["Fire.jpg"] },
         LEntry.split { iceInst with art_file := ArtVal.files ["Ice.jpg"] }] =
      Except.ok
        [LEntry.split { fireInst with art_file := ArtVal.files ["Ice.jpg", "Fire.jpg"] }] :=
  ⟨rfl, rfl⟩

/-- Three Split instances of one printing with list-valued art files
(the state the merge itself produces), sharing one display key. -/
def aliveA : SplitInst :=
  ⟨"Alive", "Well", "Alive", "DGM", 121, ArtVal.files ["a.jpg"]⟩

/-- Second instance of the same printing. -/
def aliveB : SplitInst :=
  ⟨"Alive", "Well", "Well", "DGM", 121, ArtVal.files ["b.jpg"]⟩

/-- Third instance of the same printing. -/
def aliveC : SplitInst :=
  ⟨"Alive", "Well", "Alive2", "DGM", 121, ArtVal.files ["c.jpg"]⟩

/-- Claim C3 counterexample: with three Split instances sharing one
display key, `join_dual_card_layouts` surfaces no ambiguity condition at
all — it silently merges all three into the first instance, whose
art-file list absorbs every file, and returns success. -/
theorem join_dual_three_counterexample :
    join_dual_card_layouts (fun s => s)
        [LEntry.split aliveA, LEntry.split aliveB, LEntry.split aliveC] =
      Except.ok
        [LEntry.split { aliveA with art_file := ArtVal.files ["c.jpg", "b.jpg", "a.jpg"] }] :=
  rfl

/-- Fresh (Path-valued) variants of a three-instance collision. -/
def wearA : SplitInst := ⟨"Wear", "Tear", "Wear", "DGM", 135, ArtVal.path "w.jpg"⟩

/-- Second fresh instance of the same printing. -/
def wearB : SplitInst := ⟨"Wear", "Tear", "Tear", "DGM", 135, ArtVal.path "t.jpg"⟩

/-- Third fresh instance of the same printing. -/
def wearC : SplitInst := ⟨"Wear", "Tear", "Wear2", "DGM", 135, ArtVal.path "w2.jpg"⟩

/-- Claim C3 (amended): three-or-more Split instances sharing one
display key are not surfaced as an ambiguity — no `MergeAmbiguity`
condition exists in the code. With list-valued art files the group is
silently resolved by merging every colliding instance into the first
(its art-file list concatenating all files); with freshly classified
Path-valued art files the merge instead raises `TypeError`. -/
theorem join_dual_three_amended :
    join_dual_card_layouts (fun s => s)
        [LEntry.split wearA, LEntry.split wearB, LEntry.split wearC] =
      Except.error PyError.typeError ∧
    (∃ merged : SplitInst,
      join_dual_card_layouts (fun s => s)
          [LEntry.split aliveA, LEntry.split aliveB, LEntry.split aliveC] =
        Except.ok [LEntry.split merged] ∧
      merged.art_file = ArtVal.files ["c.jpg", "b.jpg", "a.jpg"]) :=
  ⟨rfl, ⟨{ aliveA with art_file := ArtVal.files ["c.jpg", "b.jpg", "a.jpg"] }, rfl, rfl⟩⟩

/-! ### Idempotence of the merge

The key invariant: a successful run leaves the non-Split entries first
and then one Split instance per display key, pairwise distinct on that
key; and a batch of that shape is a fixed point of the merge. -/

theorem except_bind_ok {ε α β : Type} (b : α) (f : α → Except ε β) :
    (Except.ok b : Except ε α).bind f = f b := rfl

theorem except_bind_error {ε α β : Type} (e : ε) (f : α → Except ε β) :
    (Except.error e : Except ε α).bind f = Except.error e := rfl

theorem splitStr_update_art (s : SplitInst) (v : ArtVal) :
    splitStr { s with art_file := v } = splitStr s := rfl

theorem splitStr_set_art (l : List SplitInst) (i k : Nat) (v : ArtVal) :
    splitStr ((l.set i { l.getD i default with art_file := v }).getD k default) =
      splitStr (l.getD k default) := by
  by_cases hk : k = i
  · subst hk
    by_cases hlt : k < l.length
    · rw [List.getD_eq_getElem?_getD, List.getElem?_set_self hlt, Option.getD_some,
        splitStr_update_art]
    · rw [List.set_eq_of_length_le (Nat.le_of_not_lt hlt)]
  · rw [List.getD_eq_getElem?_getD, List.getElem?_set_ne (fun h => hk h.symm),
      ← List.getD_eq_getElem?_getD]

/-- Post-conditions of a successful inner loop pass: the instance list
keeps its length and display keys, `add` is untouched, `skip` only
grows, and every index of the pass colliding with index `i` lands in
`skip`. -/
theorem inner_loop_spec (normalize : String → String) (i : Nat) :
    ∀ (js : List Nat) (st st' : MergeState),
      inner_loop normalize i js st = Except.ok st' →
      st'.insts.length = st.insts.length ∧
      (∀ k, splitStr (st'.insts.getD k default) = splitStr (st.insts.getD k default)) ∧
      st'.add = st.add ∧
      (∀ x ∈ st.skip, x ∈ st'.skip) ∧
      (∀ j ∈ js, j ≠ i →
        splitStr (st.insts.getD j default) = splitStr (st.insts.getD i default) →
        j ∈ st'.skip) := by
  intro js
  induction js with
  | nil =>
    intro st st' h
    rw [inner_loop] at h
    injection h with h
    subst h
    exact ⟨rfl, fun k => rfl, rfl, fun x hx => hx, fun j hj => absurd hj (List.not_mem_nil j)⟩
  | cons j js ih =>
    intro st st' h
    rw [inner_loop] at h
    by_cases hji : j = i
    · rw [if_pos hji] at h
      obtain ⟨h1, h2, h3, h4, h5⟩ := ih st st' h
      refine ⟨h1, h2, h3, h4, ?_⟩
      intro j' hj' hne hkey
      rcases List.mem_cons.mp hj' with rfl | hmem
      · exact absurd hji hne
      · exact h5 j' hmem hne hkey
    · rw [if_neg hji] at h
      by_cases hkey : splitStr (st.insts.getD j default) = splitStr (st.insts.getD i default)
      · rw [if_pos hkey] at h
        cases hm : merge_art normalize (st.insts.getD i default) (st.insts.getD j default) with
        | error e =>
          rw [hm, except_bind_error] at h
          exact Except.noConfusion h
        | ok merged =>
          rw [hm, except_bind_ok] at h
          obtain ⟨h1, h2, h3, h4, h5⟩ := ih _ st' h
          have hkeys : ∀ k,
              splitStr (((st.insts.set i
                  { st.insts.getD i default with art_file := ArtVal.files merged })).getD k default) =
                splitStr (st.insts.getD k default) :=
            fun k => splitStr_set_art st.insts i k (ArtVal.files merged)
          refine ⟨h1.trans (List.length_set st.insts i _), fun k => (h2 k).trans (hkeys k), h3, ?_, ?_⟩
          · intro x hx
            exact h4 x (List.mem_append_left _ hx)
          · intro j' hj' hne hkey'
            rcases List.mem_cons.mp hj' with rfl | hmem
            · exact h4 j' (List.mem_append_right _ (by simp))
            · exact h5 j' hmem hne (by rw [hkeys j', hkeys i]; exact hkey')
      · rw [if_neg hkey] at h
        obtain ⟨h1, h2, h3, h4, h5⟩ := ih st st' h
        refine ⟨h1, h2, h3, h4, ?_⟩
        intro j' hj' hne hkey'
        rcases List.mem_cons.mp hj' with rfl | hmem
        · exact absurd hkey' hkey
        · exact h5 j' hmem hne hkey'

/-- Invariant carried through the outer loop: on success the instance
list keeps length `n` and its display keys, and `add` holds in-range
indices with pairwise distinct display keys. -/
theorem outer_loop_spec (normalize : String → String) (n : Nat) :
    ∀ (is' : List Nat) (st st' : MergeState),
      outer_loop normalize n is' st = Except.ok st' →
      st.insts.length = n →
      is'.Nodup →
      (∀ x ∈ is', x < n) →
      (∀ a ∈ st.add, a < n ∧ a ∉ is' ∧
        (∀ j, j < n → j ≠ a →
          splitStr (st.insts.getD j default) = splitStr (st.insts.getD a default) →
          j ∈ st.skip)) →
      st.add.Pairwise (fun a b =>
        splitStr (st.insts.getD a default) ≠ splitStr (st.insts.getD b default)) →
      st'.insts.length = n ∧
      (∀ a ∈ st'.add, a < n) ∧
      st'.add.Pairwise (fun a b =>
        splitStr (st'.insts.getD a default) ≠ splitStr (st'.insts.getD b default)) := by
  intro is'
  induction is' with
  | nil =>
    intro st st' h hlen _ _ hadd hpair
    rw [outer_loop] at h
    injection h with h
    subst h
    exact ⟨hlen, fun a ha => (hadd a ha).1, hpair⟩
  | cons i is ih =>
    intro st st' h hlen hnd hlt hadd hpair
    rw [outer_loop] at h
    by_cases hskip : i ∈ st.skip
    · rw [if_pos hskip] at h
      refine ih st st' h hlen (List.Nodup.of_cons hnd)
        (fun x hx => hlt x (List.mem_cons_of_mem i hx)) ?_ hpair
      intro a ha
      exact ⟨(hadd a ha).1, fun hmem => (hadd a ha).2.1 (List.mem_cons_of_mem i hmem),
        (hadd a ha).2.2⟩
    · rw [if_neg hskip] at h
      cases hm : inner_loop normalize i (List.range n) st with
      | error e =>
        rw [hm, except_bind_error] at h
        exact Except.noConfusion h
      | ok st₂ =>
        rw [hm, except_bind_ok] at h
        obtain ⟨i1, i2, i3, i4, i5⟩ := inner_loop_spec normalize i (List.range n) st st₂ hm
        refine ih { st₂ with add := st₂.add ++ [i] } st' h (i1.trans hlen)
          (List.Nodup.of_cons hnd) (fun x hx => hlt x (List.mem_cons_of_mem i hx)) ?_ ?_
        · intro a ha
          rcases List.mem_append.mp ha with hmem | hsing
          · rw [i3] at hmem
            refine ⟨(hadd a hmem).1,
              fun hin => (hadd a hmem).2.1 (List.mem_cons_of_mem i hin), ?_⟩
            intro j hj hne hkey
            exact i4 j ((hadd a hmem).2.2 j hj hne (by rw [← i2 j, ← i2 a]; exact hkey))
          · have ha' : a = i := by simpa using hsing
            subst ha'
            refine ⟨hlt a (List.mem_cons_self a is), (List.nodup_cons.mp hnd).1, ?_⟩
            intro j hj hne hkey
            exact i5 j (List.mem_range.mpr hj) hne (by rw [← i2 j, ← i2 a]; exact hkey)
        · rw [List.pairwise_append]
          refine ⟨?_, List.pairwise_singleton _ _, ?_⟩
          · rw [i3]
            exact hpair.imp fun {a b} hab => by rw [i2 a, i2 b]; exact hab
          · intro a ha b hb heq
            have hb' : b = i := by simpa using hb
            subst hb'
            rw [i3] at ha
            rw [i2 a, i2 b] at heq
            have hne : b ≠ a := fun hba =>
              (hadd a ha).2.1 (hba ▸ List.mem_cons_self b is)
            exact hskip ((hadd a ha).2.2 b (hlt b (List.mem_cons_self b is)) hne heq.symm)

/-- A successful merge returns the non-Split entries followed by Split
entries with pairwise distinct display strings. -/
theorem join_dual_shape (normalize : String → String) (layouts out : List LEntry)
    (h : join_dual_card_layouts normalize layouts = Except.ok out) :
    ∃ (normal : List LEntry) (splits : List SplitInst),
      out = normal ++ splits.map LEntry.split ∧
      (∀ x ∈ normal, isSplitEntry x = false) ∧
      splits.Pairwise (fun a b => splitStr a ≠ splitStr b) := by
  have hnormal : ∀ x ∈ (layouts.filter fun n => !(isSplitEntry n)), isSplitEntry x = false := by
    intro x hx
    have := List.of_mem_filter hx
    simpa using this
  by_cases he : (layouts.filterMap toSplit).isEmpty
  · rw [join_dual_card_layouts, if_pos he] at h
    injection h with h
    exact ⟨layouts.filter fun n => !(isSplitEntry n), [],
      by rw [← h, List.map_nil, List.append_nil], hnormal, List.Pairwise.nil⟩
  · rw [join_dual_card_layouts, if_neg he] at h
    cases hm : outer_loop normalize (layouts.filterMap toSplit).length
        (List.range (layouts.filterMap toSplit).length)
        { insts := layouts.filterMap toSplit, skip := [], add := [] } with
    | error e =>
      rw [hm, except_bind_error] at h
      exact Except.noConfusion h
    | ok st =>
      rw [hm, except_bind_ok] at h
      injection h with h
      obtain ⟨o1, o2, o3⟩ := outer_loop_spec normalize (layouts.filterMap toSplit).length
        (List.range (layouts.filterMap toSplit).length)
        { insts := layouts.filterMap toSplit, skip := [], add := [] } st hm rfl
        (List.nodup_range _) (fun x hx => List.mem_range.mp hx)
        (fun a ha => absurd ha (List.not_mem_nil a)) List.Pairwise.nil
      refine ⟨layouts.filter fun n => !(isSplitEntry n),
        st.add.map fun i => st.insts.getD i default, ?_, hnormal, ?_⟩
      · rw [← h, List.map_map]
        rfl
      · rw [List.pairwise_map]
        exact o3

/-- Display-key distinctness at the level of positions. -/
theorem pairwise_key_ne (splits : List SplitInst)
    (hp : splits.Pairwise fun a b => splitStr a ≠ splitStr b) :
    ∀ i j, i < splits.length → j < splits.length → i ≠ j →
      splitStr (splits.getD i default) ≠ splitStr (splits.getD j default) := by
  have hgd : ∀ (k : Nat) (hk : k < splits.length),
      splits.getD k default = splits.get ⟨k, hk⟩ := by
    intro k hk
    rw [List.getD_eq_get?, List.get?_eq_get hk]
    rfl
  intro i j hi hj hne
  rw [hgd i hi, hgd j hj]
  rcases Nat.lt_or_ge i j with hlt | hge
  · exact List.pairwise_iff_get.mp hp ⟨i, hi⟩ ⟨j, hj⟩ hlt
  · have hlt : j < i := Nat.lt_of_le_of_ne hge (Ne.symm hne)
    exact (List.pairwise_iff_get.mp hp ⟨j, hj⟩ ⟨i, hi⟩ hlt).symm

/-- On a key-distinct instance list the inner loop finds no collision
and changes nothing. -/
theorem inner_loop_id (normalize : String → String) (splits : List SplitInst)
    (hp : splits.Pairwise fun a b => splitStr a ≠ splitStr b)
    (i : Nat) (hi : i < splits.length) (skipL addL : List Nat) :
    ∀ js : List Nat, (∀ j ∈ js, j < splits.length) →
      inner_loop normalize i js ⟨splits, skipL, addL⟩ =
        Except.ok ⟨splits, skipL, addL⟩ := by
  intro js
  induction js with
  | nil => intro _; rfl
  | cons j js ih =>
    intro hjs
    rw [inner_loop]
    by_cases hji : j = i
    · rw [if_pos hji]
      exact ih fun x hx => hjs x (List.mem_cons_of_mem j hx)
    · have hne := pairwise_key_ne splits hp j i (hjs j (List.mem_cons_self j js)) hi hji
      rw [if_neg hji, if_neg hne]
      exact ih fun x hx => hjs x (List.mem_cons_of_mem j hx)

/-- On a key-distinct instance list the outer loop only accumulates
`add` indices. -/
theorem outer_loop_id (normalize : String → String) (splits : List SplitInst)
    (hp : splits.Pairwise fun a b => splitStr a ≠ splitStr b) :
    ∀ (is' addL : List Nat), (∀ x ∈ is', x < splits.length) →
      outer_loop normalize splits.length is' ⟨splits, [], addL⟩ =
        Except.ok ⟨splits, [], addL ++ is'⟩ := by
  intro is'
  induction is' with
  | nil =>
    intro addL _
    rw [outer_loop, List.append_nil]
  | cons i is ih =>
    intro addL hlt
    rw [outer_loop, if_neg (List.not_mem_nil i),
      inner_loop_id normalize splits hp i (hlt i (List.mem_cons_self i is)) [] addL
        (List.range splits.length) (fun j hj => List.mem_range.mp hj),
      except_bind_ok, ih (addL ++ [i]) (fun x hx => hlt x (List.mem_cons_of_mem i hx))]
    rw [List.append_assoc]
    rfl

/-- Materializing `add = range n` reproduces the instance list. -/
theorem range_map_getD (splits : List SplitInst) :
    ((List.range splits.length).map fun i => LEntry.split (splits.getD i default)) =
      splits.map LEntry.split := by
  induction splits with
  | nil => rfl
  | cons s ss ih =>
    rw [List.length_cons, List.range_succ_eq_map, List.map_cons, List.map_map]
    exact congrArg (List.cons (LEntry.split s)) ih

theorem filter_nonsplit_self (normal : List LEntry)
    (hn : ∀ x ∈ normal, isSplitEntry x = false) :
    (normal.filter fun n => !(isSplitEntry n)) = normal := by
  rw [List.filter_eq_self]
  intro a ha
  rw [hn a ha]
  rfl

theorem filter_split_map (splits : List SplitInst) :
    ((splits.map LEntry.split).filter fun n => !(isSplitEntry n)) = [] := by
  rw [List.filter_eq_nil]
  intro a ha
  obtain ⟨s, _, rfl⟩ := List.mem_map.mp ha
  simp [isSplitEntry]

theorem filterMap_nonsplit (normal : List LEntry)
    (hn : ∀ x ∈ normal, isSplitEntry x = false) :
    normal.filterMap toSplit = [] := by
  rw [List.filterMap_eq_nil]
  intro a ha
  cases a with
  | msg s => rfl
  | other d => rfl
  | split s => exact absurd (hn _ ha) (by simp [isSplitEntry])

theorem filterMap_split_map (splits : List SplitInst) :
    (splits.map LEntry.split).filterMap toSplit = splits := by
  induction splits with
  | nil => rfl
  | cons s ss ih =>
    rw [List.map_cons, List.filterMap_cons]
    simp [toSplit, ih]

/-- A batch of non-Split entries followed by key-distinct Split entries
is a fixed point of the merge. -/
theorem join_dual_fixed (normalize : String → String) (normal : List LEntry)
    (splits : List SplitInst)
    (hn : ∀ x ∈ normal, isSplitEntry x = false)
    (hp : splits.Pairwise fun a b => splitStr a ≠ splitStr b) :
    join_dual_card_layouts normalize (normal ++ splits.map LEntry.split) =
      Except.ok (normal ++ splits.map LEntry.split) := by
  have hfm : (normal ++ splits.map LEntry.split).filterMap toSplit = splits := by
    rw [List.filterMap_append, filterMap_nonsplit normal hn, filterMap_split_map,
      List.nil_append]
  have hfil : ((normal ++ splits.map LEntry.split).filter fun n => !(isSplitEntry n)) =
      normal := by
    rw [List.filter_append, filter_nonsplit_self normal hn, filter_split_map,
      List.append_nil]
  cases splits with
  | nil =>
    rw [join_dual_card_layouts, if_pos (by rw [hfm]; rfl), hfil, List.map_nil,
      List.append_nil]
  | cons s ss =>
    rw [join_dual_card_layouts, if_neg (by rw [hfm]; simp), hfm,
      outer_loop_id normalize (s :: ss) hp (List.range (s :: ss).length) []
        (fun x hx => List.mem_range.mp hx),
      except_bind_ok, hfil, List.nil_append, range_map_getD]

/-- Claim C2: the dual-face merge is idempotent — re-running
`join_dual_card_layouts` on any successful output returns that output
unchanged — and a lone Split instance (merged or not) always passes
through unmerged. -/
theorem join_dual_idempotent :
    (∀ (normalize : String → String) (layouts out : List LEntry),
      join_dual_card_layouts normalize layouts = Except.ok out →
      join_dual_card_layouts normalize out = Except.ok out) ∧
    (∀ (normalize : String → String) (s : SplitInst),
      join_dual_card_layouts normalize [LEntry.split s] = Except.ok [LEntry.split s]) := by
  constructor
  · intro normalize layouts out h
    obtain ⟨normal, splits, rfl, hn, hp⟩ := join_dual_shape normalize layouts out h
    exact join_dual_fixed normalize normal splits hn hp
  · intro normalize s
    have h := join_dual_fixed normalize [] [s]
      (fun x hx => absurd hx (List.not_mem_nil x))
      (List.Pairwise.cons (fun b hb => absurd hb (List.not_mem_nil b)) List.Pairwise.nil)
    simpa using h

/-- Claim C2 witness: the idempotence theorem applied to the concrete
merged batch consisting of one error string and one Split instance. -/
theorem join_dual_idempotent_witness :
    join_dual_card_layouts (fun s => s) [LEntry.msg "err", LEntry.split fireInst] =
      Except.ok [LEntry.msg "err", LEntry.split fireInst] :=
  join_dual_idempotent.1 (fun s => s) [LEntry.msg "err", LEntry.split fireInst]
    [LEntry.msg "err", LEntry.split fireInst] rfl

end Proxyshop
